import Mathlib

/-
Verification of the red_pitaya_pyrpl_asg labscript device (LQG-EPFL/labscript_rp_asg).

The embedding below translates, in exact rational arithmetic, the parts of the
repository that the verified properties concern:

* `red_pitaya_pyrpl_asg.generate_code` (red_pitaya_pyrpl_asg_python2.7/red_pitaya_pyrpl_asg.py,
  lines 152-253): duration resolution, frequency quantization and sample-buffer
  synthesis.  Python/numpy floats are modelled by `ℚ`; the transcendental float
  operations `**` (real power), `np.sin` and `np.pi`, which have no exact rational
  counterpart, are abstracted into a record `RealOps` that is universally
  quantified in every statement (no verified property depends on their values,
  only on the shapes of the arrays they produce).  Rational division is total
  with `x / 0 = 0`; the statements relying on a quotient carry positivity
  hypotheses so that this convention is never exercised.
* `red_pitaya_pyrpl_asg.power_ramp` (same file, lines 86-110): the trigger side
  effect and the two validation checks.  The method mutates `self.commands` and
  fires `self.trigger`; this is modelled by explicit state passing, with the
  error that a `raise LabscriptError` produces returned alongside the state so
  that side effects preceding the raise remain visible.
* `red_pitaya_pyrpl_asg_tab.update_attributes` (blacs_tabs.py, lines 76-115):
  the attribute quantizer `step * round(x / step)`; Python 3 `round` is
  round-half-to-even, embedded exactly on `ℚ`.
* `red_pitaya_pyrpl_asg_tab.transition_to_manual` (blacs_tabs.py, lines 117-166):
  the secondary-worker reset loop and the success aggregation, modelled as a
  function of the primary worker's result and the list of secondary results.
-/

set_option maxHeartbeats 1000000
set_option maxRecDepth 8000

/-- Frequency increment of the PYRPL ASG, the literal `1.16415e-1` from
`generate_code` (`freq_increment`). -/
def freq_increment : ℚ := 116415 / 1000000

/-- Amplitude step size, the literal `1.22070e-4` in the `'amplitude'` branch of
`update_attributes`. -/
def amplitude_step : ℚ := 122070 / 1000000000

/-- Offset step size, the literal `1.22070e-4` in the `'offset'` branch of
`update_attributes`. -/
def offset_step : ℚ := 122070 / 1000000000

/-- Frequency step size, the literal `1.16415e-1` in the `'frequency'` branch of
`update_attributes`. -/
def frequency_step : ℚ := 116415 / 1000000

/-- Python 3 `round` on an exact rational: round to the nearest integer, ties to
the even integer. -/
def round_half_even (x : ℚ) : ℤ :=
  let n : ℤ := ⌊x⌋
  if x - n < 1/2 then n
  else if 1/2 < x - n then n + 1
  else if n % 2 = 0 then n else n + 1

/-- The quantization `nearest_multiple = step * round(value / step)` performed in
the `'amplitude'`, `'offset'` and `'frequency'` branches of
`update_attributes` in blacs_tabs.py. -/
def nearest_multiple (step x : ℚ) : ℚ :=
  step * (round_half_even (x / step) : ℚ)

/-- BLACS device-tab modes relevant to `transition_to_manual`
(`MODE_MANUAL`, `MODE_TRANSITION_TO_MANUAL`, `MODE_BUFFERED`). -/
inductive Mode where
  | Manual
  | TransitionToManual
  | Buffered
deriving DecidableEq

/-- Observable outcome of `red_pitaya_pyrpl_asg_tab.transition_to_manual`:
which secondary workers were asked to reset (in order), the final tab mode,
what was put on `notify_queue`, and whether the fatal
`Exception('Could not transition to manual. ...')` was raised. -/
structure TabOutcome where
  attempted : List String
  mode : Mode
  notification : String
  fatalRaised : Bool
deriving DecidableEq

/-- The `for worker in self._secondary_workers` loop of `transition_to_manual`:
each secondary worker is asked to reset; a failing reset sets `success = False`
but the loop does not break.  Returns the workers asked, in order, and the
aggregated success flag. -/
def resetSecondaries : Bool → List (String × Bool) → List String × Bool
  | success, [] => ([], success)
  | success, w :: rest =>
    let success2 := if w.2 then success else false
    let r := resetSecondaries success2 rest
    (w.1 :: r.1, r.2)

/-- `red_pitaya_pyrpl_asg_tab.transition_to_manual`, as a function of the
primary worker's success flag and the secondary workers' results.  The tab
enters `MODE_TRANSITION_TO_MANUAL`, runs the secondary reset loop, then on
overall success notifies `'success'` and sets `MODE_MANUAL`; otherwise it
notifies `'fail'` and raises the fatal restart exception (leaving the mode at
`MODE_TRANSITION_TO_MANUAL`). -/
def transition_to_manual (primarySuccess : Bool)
    (secondaries : List (String × Bool)) : TabOutcome :=
  let r := resetSecondaries primarySuccess secondaries
  if r.2 then
    { attempted := r.1, mode := Mode.Manual,
      notification := "success", fatalRaised := false }
  else
    { attempted := r.1, mode := Mode.TransitionToManual,
      notification := "fail", fatalRaised := true }

/-- The four command dictionaries appended by `constant`, `linear_ramp`,
`power_ramp` and `sine`, keyed by their `'name'` field. -/
inductive CommandKind where
  | constant (volt : ℚ)
  | linear_ramp (init_volt final_volt : ℚ)
  | power_ramp (time_const init_volt final_volt ratio_trap_temp : ℚ)
  | sine (frequency amplitude offset : ℚ)
deriving DecidableEq

/-- A command dictionary: the common `'t'` and `'duration'` entries plus the
variant-specific parameters. -/
structure Command where
  t : ℚ
  duration : ℚ
  kind : CommandKind
deriving DecidableEq

/-- The mutable state of a `red_pitaya_pyrpl_asg` device instance:
`self.commands` and the log of emitted parent-device triggers
(`self.trigger(t)` calls). -/
structure ASGState where
  commands : List Command
  triggers : List ℚ
deriving DecidableEq

/-- `red_pitaya_pyrpl_asg.power_ramp(t, duration, time_const, init_volt,
final_volt, ratio_trap_temp)`.  Faithful to the source order: the trigger is
emitted first when the command list is empty, then the two validations run
(`time_const < duration` and `final_volt >= init_volt` raise LabscriptError),
and only then is the command appended.  The returned `Option String` is the
raised error, if any; the returned state records side effects that happened
before the raise. -/
def power_ramp (st : ASGState) (t dur time_const init_volt final_volt
    ratio_trap_temp : ℚ) : ASGState × Option String :=
  let st1 := if st.commands.isEmpty then
    { st with triggers := st.triggers ++ [t] } else st
  if time_const < dur then
    (st1, some "power_ramp requires time_const greater than duration")
  else if final_volt ≥ init_volt then
    (st1, some "power_ramp requires final_volt less than init_volt")
  else
    ({ st1 with commands := st1.commands ++
        [{ t := t, duration := dur,
           kind := CommandKind.power_ramp time_const init_volt final_volt
             ratio_trap_temp }] }, none)

/-- Python `min` of a nonempty list of rationals (0 on the empty list, which
`generate_code` never reaches). -/
def listMin : List ℚ → ℚ
  | [] => 0
  | x :: xs => xs.foldl min x

/-- Python `max` of a nonempty list of rationals. -/
def listMax : List ℚ → ℚ
  | [] => 0
  | x :: xs => xs.foldl max x

/-- Python `times.index(max(times))`: index of the first occurrence of the
maximum. -/
def indexOfMax (l : List ℚ) : ℕ :=
  l.findIdx (fun x => decide (x = listMax l))

/-- `np.diff(times)`: consecutive differences `times[i+1] - times[i]`. -/
def timeDiffs : List ℚ → List ℚ
  | [] => []
  | [_] => []
  | t0 :: t1 :: rest => (t1 - t0) :: timeDiffs (t1 :: rest)

/-- The zero-duration replacement loop of `generate_code`: every entry of
`durations` equal to 0 is replaced by the time difference at the same position
(`durations[i] = time_diffs[i]`).  The final entry has no difference available;
`generate_code` only reaches this point after checking that it is nonzero. -/
def fillZeros : List ℚ → List ℚ → List ℚ
  | [], _ => []
  | d :: ds, [] => d :: ds
  | d :: ds, diff :: diffs => (if d = 0 then diff else d) :: fillZeros ds diffs

/-- The resolved durations of a command list, as computed by `generate_code`. -/
def resolvedDurs (cmds : List Command) : List ℚ :=
  fillZeros (cmds.map Command.duration) (timeDiffs (cmds.map Command.t))

/-- `np.floor(frequency/freq_increment) * freq_increment` with
`frequency = 1/total_duration`: the burst frequency rounded down to a multiple
of `freq_increment`. -/
def roundedFreq (S : ℚ) : ℚ :=
  (⌊(1 / S) / freq_increment⌋ : ℚ) * freq_increment

/-- `total_duration = 1/rounded_freq`: the corrected total span used by all
downstream buffer index computations. -/
def compiledSpan (S : ℚ) : ℚ := 1 / roundedFreq S

/-- `2**14`, the fixed number of PYRPL ASG data points. -/
def bufferN : ℕ := 2 ^ 14

/-- `np.linspace(0, 1, n)`: `n` evenly spaced samples from 0 to 1 inclusive
(`[0]` for `n = 1`, empty for `n = 0`).  This is the `steps` array of
`generate_code`. -/
def linspace01 : ℕ → List ℚ
  | 0 => []
  | 1 => [0]
  | n + 2 => (List.range (n + 2)).map fun k : ℕ => (k : ℚ) / ((n : ℚ) + 1)

/-- `ts = np.linspace(0.0, total_duration, 2**14)`: the uniform time grid of
the sample buffer. -/
def linspaceT (T : ℚ) : List ℚ :=
  (List.range bufferN).map fun k : ℕ => T * (k : ℚ) / ((bufferN : ℚ) - 1)

/-- The transcendental float operations used by `generate_code` (`**` with a
rational exponent, `np.sin`, `np.pi`), which have no exact rational
counterpart.  All verified statements hold for every interpretation. -/
structure RealOps where
  rpow : ℚ → ℚ → ℚ
  sin : ℚ → ℚ
  pi : ℚ

/-- The `linear_ramp` branch of the synthesis loop:
`out = (final_volt - init_volt) * steps + init_volt`. -/
def linearRampFill (init_volt final_volt : ℚ) (n : ℕ) : List ℚ :=
  (linspace01 n).map fun u => (final_volt - init_volt) * u + init_volt

/-- The `power_ramp` branch of the synthesis loop, with the effective exponent
`ramp_exp = 2*(rtt-3)/(rtt-6)` for `rtt = ratio + (ratio-5)/(ratio-4)`. -/
def powerRampFill (ops : RealOps) (time_const init_volt final_volt
    ratio_trap_temp : ℚ) (dur : ℚ) (n : ℕ) : List ℚ :=
  let rtt := ratio_trap_temp +
    (ratio_trap_temp - 5) / (ratio_trap_temp - 4)
  let ramp_exp := 2 * (rtt - 3) / (rtt - 6)
  let coeff := ops.rpow (1 - dur / time_const) ramp_exp
  let coeff2 := (init_volt * coeff - final_volt) / (coeff - 1)
  (linspace01 n).map fun u =>
    (init_volt - coeff2) * ops.rpow (1 - u * dur / time_const) ramp_exp + coeff2

/-- The `sine` branch of the synthesis loop:
`sin(2*pi*frequency*duration*steps) * amplitude + offset`. -/
def sineFill (ops : RealOps) (frequency amplitude offset : ℚ) (dur : ℚ)
    (n : ℕ) : List ℚ :=
  (linspace01 n).map fun u =>
    ops.sin (2 * ops.pi * frequency * dur * u) * amplitude + offset

/-- Dispatch on `command['name']` inside the synthesis loop, producing the
`n`-sample output array for one command. -/
def commandFill (ops : RealOps) (c : Command) (dur : ℚ) (n : ℕ) : List ℚ :=
  match c.kind with
  | CommandKind.constant volt => List.replicate n volt
  | CommandKind.linear_ramp i f => linearRampFill i f n
  | CommandKind.power_ramp tc i f r => powerRampFill ops tc i f r dur n
  | CommandKind.sine fr a o => sineFill ops fr a o dur n

/-- Helper for `np.argmin(np.abs(ts - x))`: index and value of the minimum of
`|t - x|` over `ts`, ties resolved to the earliest index. -/
def argminAbsFrom (x : ℚ) : List ℚ → Option (ℕ × ℚ)
  | [] => none
  | t :: ts =>
    match argminAbsFrom x ts with
    | none => some (0, |t - x|)
    | some (j, m) => if |t - x| ≤ m then some (0, |t - x|) else some (j + 1, m)

/-- `np.argmin(np.abs(ts - x))`: index of the grid point of `ts` nearest to
`x` (first occurrence on ties, 0 on the empty list). -/
def argminAbs (x : ℚ) (ts : List ℚ) : ℕ :=
  match argminAbsFrom x ts with
  | none => 0
  | some (j, _) => j

/-- Slice assignment `buf[a : a + vals.length] = vals`. -/
def writeSeg (buf : List ℚ) (a : ℕ) (vals : List ℚ) : List ℚ :=
  buf.take a ++ vals ++ buf.drop (a + vals.length)

/-- One iteration of the synthesis loop of `generate_code`: locate
`t_init_idx` and `t_end_idx` by nearest-grid-point search and overwrite that
index range of the buffer with the command's output array. -/
def synthStep (ops : RealOps) (ts : List ℚ) (t_init : ℚ) (buf : List ℚ)
    (cd : Command × ℚ) : List ℚ :=
  let a := argminAbs (cd.1.t - t_init) ts
  let b := argminAbs (cd.2 + cd.1.t - t_init) ts
  writeSeg buf a (commandFill ops cd.1 cd.2 (b - a))

/-- The full synthesis loop: starting from `np.zeros(2**14)`, apply every
command (paired with its resolved duration) in timeline order. -/
def synthBuffer (ops : RealOps) (ts : List ℚ) (t_init : ℚ)
    (cds : List (Command × ℚ)) : List ℚ :=
  cds.foldl (synthStep ops ts t_init) (List.replicate bufferN 0)

/-- `t_init = min(times)`. -/
def tInitOf (cmds : List Command) : ℚ := listMin (cmds.map Command.t)

/-- `t_final = max(times) + durations[times.index(max(times))]`, with the
resolved durations. -/
def tFinalOf (cmds : List Command) : ℚ :=
  listMax (cmds.map Command.t) +
    (resolvedDurs cmds).getD (indexOfMax (cmds.map Command.t)) 0

/-- `total_duration = t_final - t_init`, before frequency quantization. -/
def totalDurationOf (cmds : List Command) : ℚ := tFinalOf cmds - tInitOf cmds

/-- The corrected span `1/rounded_freq` of a command list. -/
def spanOf (cmds : List Command) : ℚ := compiledSpan (totalDurationOf cmds)

/-- The `out_values` array produced by `generate_code` for a command list. -/
def outValues (ops : RealOps) (cmds : List Command) : List ℚ :=
  synthBuffer ops (linspaceT (spanOf cmds)) (tInitOf cmds)
    (cmds.zip (resolvedDurs cmds))

/-- The two datasets written to the shot file by `generate_code`. -/
structure Artifact where
  total_duration : ℚ
  out_values : List ℚ
deriving DecidableEq

/-- `red_pitaya_pyrpl_asg.generate_code`: returns `none` when the command list
is empty (early return, nothing written), raises LabscriptError (`Except.error`)
when the last command's duration is 0, and otherwise resolves durations,
quantizes the frequency and synthesizes the buffer.  The error branch is taken
before `roundedFreq`, `linspaceT` or `synthBuffer` enter the result. -/
def generate_code (ops : RealOps) (cmds : List Command) :
    Except String (Option Artifact) :=
  if cmds.isEmpty then Except.ok none
  else if (cmds.map Command.duration).getLast? = some 0 then
    Except.error "Last command needs fixed duration"
  else
    Except.ok (some { total_duration := spanOf cmds,
                      out_values := outValues ops cmds })

/-- A concrete interpretation of the transcendental operations, used by the
witnesses (every theorem quantifies over all interpretations). -/
def ops0 : RealOps := { rpow := fun _ _ => 0, sin := fun _ => 0, pi := 0 }

/-- Witness timeline from the specification's scenario: a zero-duration hold at
t = 0 followed by a linear ramp of duration 1/2 starting at t = 1/2. -/
def cmdsA : List Command :=
  [{ t := 0, duration := 0, kind := CommandKind.constant (1/2) },
   { t := 1/2, duration := 1/2, kind := CommandKind.linear_ramp (1/2) (1/10) }]

/-- Witness command whose span quantizes exactly: a linear ramp from 1 to 0 of
duration `1000000/116415` (one full frequency increment period). -/
def sampleCmd : Command :=
  { t := 0, duration := 1000000 / 116415,
    kind := CommandKind.linear_ramp 1 0 }

/-! ### Helper lemmas: secondary-worker reset loop -/

lemma resetSecondaries_eq (s : Bool) (ws : List (String × Bool)) :
    resetSecondaries s ws = (ws.map Prod.fst, s && ws.all Prod.snd) := by
  induction ws generalizing s with
  | nil => simp [resetSecondaries]
  | cons w rest ih =>
    simp only [resetSecondaries, ih, List.map_cons, List.all_cons]
    cases h : w.2 <;> cases s <;> simp [h]

/-! ### Helper lemmas: Python 3 rounding -/

lemma round_half_even_intCast (n : ℤ) : round_half_even (n : ℚ) = n := by
  have h : ((n : ℚ) - (n : ℚ)) = 0 := by ring
  simp [round_half_even, Int.floor_intCast, h]

lemma nearest_multiple_idem (step : ℚ) (x : ℚ) (hs : step ≠ 0) :
    nearest_multiple step (nearest_multiple step x) = nearest_multiple step x := by
  unfold nearest_multiple
  rw [mul_div_cancel_left₀ _ hs, round_half_even_intCast]

/-! ### Helper lemmas: duration resolution -/

lemma timeDiffs_length (ts : List ℚ) : (timeDiffs ts).length = ts.length - 1 := by
  induction ts with
  | nil => simp [timeDiffs]
  | cons t rest ih =>
    cases rest with
    | nil => simp [timeDiffs]
    | cons t1 r => simpa [timeDiffs] using ih

lemma timeDiffs_pos (ts : List ℚ) (h : List.Chain' (· < ·) ts) :
    ∀ x ∈ timeDiffs ts, 0 < x := by
  induction ts with
  | nil => simp [timeDiffs]
  | cons t rest ih =>
    cases rest with
    | nil => simp [timeDiffs]
    | cons t1 r =>
      rw [List.chain'_cons] at h
      intro x hx
      rw [timeDiffs] at hx
      rcases List.mem_cons.mp hx with rfl | hx
      · linarith [h.1]
      · exact ih h.2 x hx

lemma fillZeros_ne_zero (ds : List ℚ) :
    ∀ (diffs : List ℚ), ds.length = diffs.length + 1 →
      (∀ x ∈ diffs, 0 < x) → ds.getLast? ≠ some 0 →
      ∀ d ∈ fillZeros ds diffs, d ≠ 0 := by
  induction ds with
  | nil => simp
  | cons d ds ih =>
    intro diffs hlen hpos hlast
    cases ds with
    | nil =>
      have hd : diffs = [] := by
        cases diffs with
        | nil => rfl
        | cons a l => simp at hlen
      subst hd
      simp only [List.getLast?_singleton, ne_eq, Option.some.injEq] at hlast
      simp [fillZeros, hlast]
    | cons d1 ds1 =>
      cases diffs with
      | nil => simp at hlen
      | cons diff diffs1 =>
        intro x hx
        rw [fillZeros] at hx
        rcases List.mem_cons.mp hx with rfl | hx
        · by_cases hd : d = 0
          · simpa [hd] using ne_of_gt (hpos diff (by simp))
          · simp [hd]
        · exact ih diffs1 (by simpa using hlen)
            (fun y hy => hpos y (by simp [hy]))
            (by rwa [List.getLast?_cons_cons] at hlast) x hx

lemma fillZeros_getD (ds : List ℚ) :
    ∀ (diffs : List ℚ) (i : ℕ), i < ds.length → i < diffs.length →
      (fillZeros ds diffs).getD i 0 =
        if ds.getD i 0 = 0 then diffs.getD i 0 else ds.getD i 0 := by
  induction ds with
  | nil => simp
  | cons d ds ih =>
    intro diffs i hds hdiffs
    cases diffs with
    | nil => simp at hdiffs
    | cons diff diffs =>
      cases i with
      | zero => simp [fillZeros]
      | succ i =>
        simpa [fillZeros] using
          ih diffs i (by simpa using hds) (by simpa using hdiffs)

lemma timeDiffs_getD (ts : List ℚ) :
    ∀ (i : ℕ), i + 1 < ts.length →
      (timeDiffs ts).getD i 0 = ts.getD (i+1) 0 - ts.getD i 0 := by
  induction ts with
  | nil => simp
  | cons t rest ih =>
    intro i h
    cases rest with
    | nil => simp at h
    | cons t1 r =>
      cases i with
      | zero => simp [timeDiffs]
      | succ i => simpa [timeDiffs] using ih i (by simpa using h)

/-- Claim C8: in `transition_to_manual`, after the primary worker returns,
every secondary sub-device's reset is attempted even when an earlier one fails
(no early abort); failures are combined by logical AND into the overall result;
on overall success the mode is set to Manual, otherwise a failure notification
is posted and the fatal restart exception is raised. -/
theorem c8_transition_to_manual_aggregation (p : Bool)
    (ws : List (String × Bool)) :
    (transition_to_manual p ws).attempted = ws.map Prod.fst ∧
    (transition_to_manual p ws).mode =
      (if p && ws.all Prod.snd then Mode.Manual else Mode.TransitionToManual) ∧
    (transition_to_manual p ws).notification =
      (if p && ws.all Prod.snd then "success" else "fail") ∧
    (transition_to_manual p ws).fatalRaised = !(p && ws.all Prod.snd) := by
  simp only [transition_to_manual, resetSecondaries_eq]
  cases h : p && ws.all Prod.snd <;> simp [h]

/-- Claim C9: the attribute quantizer `step * round(x / step)` of
`update_attributes` (step 1.22070e-4 for amplitude and offset, 1.16415e-1 for
frequency) is idempotent on every exact rational input. -/
theorem c9_quantize_idempotent (x : ℚ) :
    nearest_multiple amplitude_step (nearest_multiple amplitude_step x) =
      nearest_multiple amplitude_step x ∧
    nearest_multiple offset_step (nearest_multiple offset_step x) =
      nearest_multiple offset_step x ∧
    nearest_multiple frequency_step (nearest_multiple frequency_step x) =
      nearest_multiple frequency_step x :=
  ⟨nearest_multiple_idem amplitude_step x (by norm_num [amplitude_step]),
   nearest_multiple_idem offset_step x (by norm_num [offset_step]),
   nearest_multiple_idem frequency_step x (by norm_num [frequency_step])⟩

/-- Claim C10: when `power_ramp` is the first call on an empty timeline, the
trigger to the parent device is emitted before the validation checks run.
Concretely, a call with `time_const < duration` raises the LabscriptError and
appends no command, yet the trigger at time 3 has already been recorded. -/
theorem c10_trigger_before_validation :
    (power_ramp { commands := [], triggers := [] } 3 2 1 1 0 7).2.isSome = true ∧
    (power_ramp { commands := [], triggers := [] } 3 2 1 1 0 7).1.commands = [] ∧
    (power_ramp { commands := [], triggers := [] } 3 2 1 1 0 7).1.triggers = [3] := by
  norm_num [power_ramp]

/-- Claim C4 (code behavior at the failing input): `power_ramp` called with
`time_const = duration = 1` (and valid `final_volt < init_volt`) raises no
error and appends the command, although both the specification invariant and
the code's own error message require `time_const > duration`: the guard
`time_const < duration` misses the boundary case. -/
theorem c4_time_const_equality_not_rejected :
    (power_ramp { commands := [], triggers := [] } 0 1 1 2 0 7).2 = none ∧
    (power_ramp { commands := [], triggers := [] } 0 1 1 2 0 7).1.commands =
      [{ t := 0, duration := 1, kind := CommandKind.power_ramp 1 2 0 7 }] := by
  norm_num [power_ramp]

/-- Claim C5 counterexample: the progress values used by the synthesis loop for
a command of sample width 2 are `np.linspace(0, 1, 2) = [0, 1]`, not the
claimed `u_k = k / (end_index - start_index) = [0, 1/2]`. -/
theorem c5_progress_ramp_counterexample :
    linspace01 2 ≠ (List.range 2).map (fun k : ℕ => (k : ℚ) / 2) := by
  norm_num [linspace01, List.range_succ]

/-- Claim C5 (amended): for a resolved sample range of width
`n = end_index - start_index ≥ 2`, the normalized progress values used to
evaluate the command's waveform are `u_k = k / (n - 1)` for `k` in `[0, n)`
(endpoint inclusive: the last progress value is 1). -/
theorem c5_progress_ramp_amended (n : ℕ) (hn : 2 ≤ n) :
    linspace01 n = (List.range n).map (fun k : ℕ => (k : ℚ) / ((n : ℚ) - 1)) := by
  obtain ⟨m, rfl⟩ : ∃ m, n = m + 2 := ⟨n - 2, by omega⟩
  simp only [linspace01]
  refine List.map_congr_left fun k _ => ?_
  congr 1
  push_cast
  ring

/-- Witness for the amended claim C5, at width 3. -/
theorem c5_progress_ramp_amended_witness :
    2 ≤ 3 ∧
    linspace01 3 = (List.range 3).map (fun k : ℕ => (k : ℚ) / ((3 : ℚ) - 1)) :=
  ⟨by norm_num, c5_progress_ramp_amended 3 (by norm_num)⟩

/-- Claim C1: for every non-empty timeline with strictly increasing command
start times whose last command has a nonzero duration, duration resolution in
`generate_code` leaves no command with a zero duration (each zero duration
receives the positional, hence positive, delta to the next start time). -/
theorem c1_duration_resolution_nonzero (cmds : List Command)
    (hne : cmds ≠ [])
    (hmono : List.Chain' (· < ·) (cmds.map Command.t))
    (hlast : (cmds.map Command.duration).getLast? ≠ some 0) :
    ∀ d ∈ resolvedDurs cmds, d ≠ 0 := by
  apply fillZeros_ne_zero
  · rw [timeDiffs_length]
    simp only [List.length_map]
    have h0 : cmds.length ≠ 0 := fun h =>
      hne (List.length_eq_zero.mp h)
    omega
  · exact timeDiffs_pos _ hmono
  · simpa using hlast

/-- Witness for claim C1, on the specification's two-command scenario. -/
theorem c1_duration_resolution_nonzero_witness :
    cmdsA ≠ [] ∧ List.Chain' (· < ·) (cmdsA.map Command.t) ∧
    (cmdsA.map Command.duration).getLast? ≠ some 0 ∧
    ∀ d ∈ resolvedDurs cmdsA, d ≠ 0 :=
  ⟨by simp [cmdsA], by norm_num [cmdsA, List.chain'_cons],
   by norm_num [cmdsA],
   c1_duration_resolution_nonzero cmdsA (by simp [cmdsA])
     (by norm_num [cmdsA, List.chain'_cons]) (by norm_num [cmdsA])⟩

/-- Claim C2: for every non-empty timeline, `generate_code` raises the
LabscriptError exactly when the last command's duration is 0 (the error branch
is taken before `roundedFreq` or `synthBuffer` enter the result), and when it
is not raised every zero duration is replaced by the pairwise delta to the
next command's start time, computed by position. -/
theorem c2_last_duration_error_iff (ops : RealOps) (cmds : List Command)
    (hne : cmds ≠ []) :
    ((generate_code ops cmds =
        Except.error "Last command needs fixed duration") ↔
      (cmds.map Command.duration).getLast? = some 0) ∧
    (∀ i, i + 1 < cmds.length →
      ((cmds.map Command.duration).getD i 0 = 0 →
        (resolvedDurs cmds).getD i 0 =
          (cmds.map Command.t).getD (i+1) 0 - (cmds.map Command.t).getD i 0) ∧
      ((cmds.map Command.duration).getD i 0 ≠ 0 →
        (resolvedDurs cmds).getD i 0 = (cmds.map Command.duration).getD i 0)) := by
  constructor
  · unfold generate_code
    rw [if_neg (by simpa using hne)]
    by_cases h : (cmds.map Command.duration).getLast? = some 0
    · simp [h]
    · simp [h]
  · intro i hi
    have hds : i < (cmds.map Command.duration).length := by
      simp only [List.length_map]; omega
    have hdiffs : i < (timeDiffs (cmds.map Command.t)).length := by
      rw [timeDiffs_length]; simp only [List.length_map]; omega
    refine ⟨fun h0 => ?_, fun h0 => ?_⟩
    · rw [resolvedDurs, fillZeros_getD _ _ i hds hdiffs, if_pos h0,
        timeDiffs_getD _ i (by simp only [List.length_map]; omega)]
    · rw [resolvedDurs, fillZeros_getD _ _ i hds hdiffs, if_neg h0]

/-- Witness for claim C2, on the specification's two-command scenario,
instantiating the positional-replacement part at the zero-duration hold. -/
theorem c2_last_duration_error_iff_witness :
    cmdsA ≠ [] ∧
    ((generate_code ops0 cmdsA =
        Except.error "Last command needs fixed duration") ↔
      (cmdsA.map Command.duration).getLast? = some 0) ∧
    ((cmdsA.map Command.duration).getD 0 0 = 0 →
      (resolvedDurs cmdsA).getD 0 0 =
        (cmdsA.map Command.t).getD 1 0 - (cmdsA.map Command.t).getD 0 0) :=
  ⟨by simp [cmdsA],
   (c2_last_duration_error_iff ops0 cmdsA (by simp [cmdsA])).1,
   fun h =>
     ((c2_last_duration_error_iff ops0 cmdsA (by simp [cmdsA])).2 0
       (by simp [cmdsA])).1 h⟩

/-- Claim C3: for a resolved span `S > 0` whose quantized frequency is positive
(the only case in which the float code produces a finite recomputed span), the
compiled frequency is `1/S` rounded down to a multiple of
`FREQ_STEP = 1.16415e-1`, hence at most `1/S`; and the span used downstream is
recomputed as `1/quantized_frequency`, hence at least `S`. -/
theorem c3_frequency_quantization (S : ℚ) (hS : 0 < S)
    (hq : 0 < roundedFreq S) :
    roundedFreq S =
      (⌊(1 / S) / (116415 / 1000000 : ℚ)⌋ : ℚ) * (116415 / 1000000) ∧
    roundedFreq S ≤ 1 / S ∧
    compiledSpan S = 1 / roundedFreq S ∧
    S ≤ compiledSpan S := by
  have hfi : (0:ℚ) < freq_increment := by norm_num [freq_increment]
  have hle : roundedFreq S ≤ 1 / S := by
    rw [roundedFreq]
    calc (⌊(1 / S) / freq_increment⌋ : ℚ) * freq_increment
        ≤ ((1 / S) / freq_increment) * freq_increment :=
          mul_le_mul_of_nonneg_right (Int.floor_le _) (le_of_lt hfi)
      _ = 1 / S := div_mul_cancel₀ _ (ne_of_gt hfi)
  refine ⟨by simp [roundedFreq, freq_increment], hle, rfl, ?_⟩
  have h2 := one_div_le_one_div_of_le hq hle
  rwa [one_div_one_div] at h2

/-- Witness for claim C3, at span `S = 1`. -/
theorem c3_frequency_quantization_witness :
    (0:ℚ) < 1 ∧ (0:ℚ) < roundedFreq 1 ∧
    roundedFreq 1 ≤ 1 / 1 ∧ compiledSpan 1 = 1 / roundedFreq 1 ∧
    (1:ℚ) ≤ compiledSpan 1 :=
  ⟨one_pos, by norm_num [roundedFreq, freq_increment],
   (c3_frequency_quantization 1 one_pos
     (by norm_num [roundedFreq, freq_increment])).2.1,
   (c3_frequency_quantization 1 one_pos
     (by norm_num [roundedFreq, freq_increment])).2.2.1,
   (c3_frequency_quantization 1 one_pos
     (by norm_num [roundedFreq, freq_increment])).2.2.2⟩


/-! ### Helper lemmas: nearest-grid-point search -/

lemma argminAbsFrom_cons (x t : ℚ) (ts : List ℚ) :
    argminAbsFrom x (t :: ts) =
      match argminAbsFrom x ts with
      | none => some (0, |t - x|)
      | some (j, m) =>
        if |t - x| ≤ m then some (0, |t - x|) else some (j + 1, m) := rfl

lemma argminAbsFrom_spec (x : ℚ) (ts : List ℚ) (hne : ts ≠ []) :
    ∃ j m, argminAbsFrom x ts = some (j, m) ∧ j < ts.length ∧
      ∃ u ∈ ts, m = |u - x| := by
  induction ts with
  | nil => simp at hne
  | cons t rest ih =>
    cases rest with
    | nil =>
      exact ⟨0, |t - x|, by simp [argminAbsFrom], by simp, t, by simp, rfl⟩
    | cons t1 r =>
      obtain ⟨j, m, hrec, hj, u, hu, hm⟩ := ih (by simp)
      rw [argminAbsFrom_cons, hrec]
      by_cases hle : |t - x| ≤ m
      · exact ⟨0, |t - x|, by simp [hle], by simp, t, by simp, rfl⟩
      · exact ⟨j + 1, m, by simp [hle], by simpa using Nat.succ_lt_succ hj, u,
          by simp [hu], hm⟩

lemma argminAbs_lt_length (x : ℚ) (ts : List ℚ) (hne : ts ≠ []) :
    argminAbs x ts < ts.length := by
  obtain ⟨j, m, h, hj, _⟩ := argminAbsFrom_spec x ts hne
  simp [argminAbs, h, hj]

lemma argminAbs_cons_of_lt (x t : ℚ) (ts : List ℚ)
    (h : ∀ u ∈ ts, |t - x| < |u - x|) : argminAbs x (t :: ts) = 0 := by
  cases ts with
  | nil => simp [argminAbs, argminAbsFrom]
  | cons t1 r =>
    obtain ⟨j, m, hrec, hj, u, hu, hm⟩ := argminAbsFrom_spec x (t1 :: r) (by simp)
    have hle : |t - x| ≤ m := le_of_lt (hm ▸ h u hu)
    rw [argminAbs, argminAbsFrom_cons, hrec]
    simp [hle]

lemma argminAbsFrom_of_pairwise (x : ℚ) (ts : List ℚ) :
    ∀ t : ℚ, ((t :: ts).map (fun u => |u - x|)).Pairwise (· > ·) →
      argminAbsFrom x (t :: ts) = some (ts.length, |ts.getLastD t - x|) := by
  induction ts with
  | nil => intro t _; simp [argminAbsFrom]
  | cons t1 r ih =>
    intro t hp
    rw [List.map_cons, List.pairwise_cons] at hp
    have hrec := ih t1 hp.2
    have hmem : (r.getLastD t1) ∈ t1 :: r := List.getLastD_mem_cons r t1
    have hgt : |t - x| > |r.getLastD t1 - x| := by
      refine hp.1 _ ?_
      rw [List.mem_map]
      exact ⟨r.getLastD t1, hmem, rfl⟩
    simp only [argminAbsFrom_cons, hrec, if_neg (not_le.mpr hgt)]
    rw [List.getLastD_cons, List.length_cons]

lemma argminAbs_of_pairwise (x : ℚ) (ts : List ℚ) (hne : ts ≠ [])
    (hp : (ts.map (fun u => |u - x|)).Pairwise (· > ·)) :
    argminAbs x ts = ts.length - 1 := by
  cases ts with
  | nil => simp at hne
  | cons t r => simp [argminAbs, argminAbsFrom_of_pairwise x r t hp]

lemma linspaceT_length (T : ℚ) : (linspaceT T).length = bufferN := by
  rw [linspaceT, List.length_map, List.length_range]

lemma linspaceT_ne_nil (T : ℚ) : linspaceT T ≠ [] := by
  intro h
  have h2 := linspaceT_length T
  rw [h] at h2
  simp [bufferN] at h2

lemma argminAbs_linspaceT_zero (T : ℚ) (hT : 0 < T) :
    argminAbs 0 (linspaceT T) = 0 := by
  have h0 : linspaceT T = (T * ((0:ℕ):ℚ) / ((bufferN:ℚ) - 1)) ::
      ((List.range 16383).map Nat.succ).map
        (fun k : ℕ => T * (k:ℚ) / ((bufferN:ℚ) - 1)) := by
    rw [linspaceT, bufferN, show (2^14 : ℕ) = 16383 + 1 from rfl,
      List.range_succ_eq_map, List.map_cons]
  rw [h0]
  apply argminAbs_cons_of_lt
  intro u hu
  simp only [List.map_map, List.mem_map, List.mem_range, Function.comp] at hu
  obtain ⟨k, _, rfl⟩ := hu
  have hb : ((bufferN:ℚ) - 1) = 16383 := by norm_num [bufferN]
  rw [hb]
  have hpos : 0 < T * ((Nat.succ k : ℕ):ℚ) / 16383 := by positivity
  simp only [Nat.cast_zero, mul_zero, zero_div, sub_zero, abs_zero, zero_sub,
    abs_neg]
  exact lt_of_lt_of_le hpos (le_abs_self _)

lemma argminAbs_linspaceT_last (T : ℚ) (hT : 0 < T) :
    argminAbs T (linspaceT T) = 16383 := by
  have hlen : (linspaceT T).length = 16384 := by
    rw [linspaceT_length]; norm_num [bufferN]
  have hp : ((linspaceT T).map (fun u => |u - T|)).Pairwise (· > ·) := by
    rw [linspaceT, List.pairwise_map, List.pairwise_map,
      List.pairwise_iff_getElem]
    intro i j hi hj hij
    simp only [List.length_range] at hi hj
    simp only [List.getElem_range]
    have key : ∀ m : ℕ, m < 16384 →
        |T * (m:ℚ) / ((bufferN:ℚ) - 1) - T| = T * (16383 - (m:ℚ)) / 16383 := by
      intro m hm
      have hb : ((bufferN:ℚ) - 1) = 16383 := by norm_num [bufferN]
      have hm1 : (m:ℚ) ≤ 16383 := by
        have h3 : m ≤ 16383 := by omega
        exact_mod_cast h3
      have hnp : T * (m:ℚ) / ((bufferN:ℚ) - 1) - T ≤ 0 := by
        rw [hb, sub_nonpos, div_le_iff₀ (by norm_num : (0:ℚ) < 16383)]
        exact mul_le_mul_of_nonneg_left hm1 (le_of_lt hT)
      rw [abs_of_nonpos hnp, hb]
      ring
    have hbn : bufferN = 16384 := by norm_num [bufferN]
    rw [hbn] at hi hj
    rw [key i hi, key j hj]
    have hij2 : (i:ℚ) < (j:ℚ) := by exact_mod_cast hij
    have hsub : (16383 - (j:ℚ)) < (16383 - (i:ℚ)) := by linarith
    gcongr
  have h := argminAbs_of_pairwise T (linspaceT T) (linspaceT_ne_nil T) hp
  rw [h, hlen]

/-! ### Helper lemmas: slice assignment -/

lemma writeSeg_length (buf : List ℚ) (a : ℕ) (vals : List ℚ)
    (h : a + vals.length ≤ buf.length) :
    (writeSeg buf a vals).length = buf.length := by
  simp only [writeSeg, List.length_append, List.length_take, List.length_drop]
  omega

lemma writeSeg_getElem?_lt (buf : List ℚ) (a : ℕ) (vals : List ℚ) (pos : ℕ)
    (hpos : pos < a) (h : a ≤ buf.length) :
    (writeSeg buf a vals)[pos]? = buf[pos]? := by
  rw [writeSeg, List.append_assoc,
    List.getElem?_append_left (by simp only [List.length_take]; omega),
    List.getElem?_take]
  simp [hpos]

lemma writeSeg_getElem?_ge (buf : List ℚ) (a : ℕ) (vals : List ℚ) (pos : ℕ)
    (hpos : a + vals.length ≤ pos) (h : a + vals.length ≤ buf.length) :
    (writeSeg buf a vals)[pos]? = buf[pos]? := by
  rw [writeSeg, List.append_assoc,
    List.getElem?_append_right (by simp only [List.length_take]; omega),
    List.getElem?_append_right (by simp only [List.length_take]; omega),
    List.getElem?_drop]
  congr 1
  simp only [List.length_take]
  omega

lemma writeSeg_getElem?_mem (buf : List ℚ) (a : ℕ) (vals : List ℚ) (k : ℕ)
    (hk : k < vals.length) (h : a ≤ buf.length) :
    (writeSeg buf a vals)[a + k]? = vals[k]? := by
  have h1 : (List.take a buf).length = a := by
    simp only [List.length_take]; omega
  rw [writeSeg, List.append_assoc,
    List.getElem?_append_right (by rw [h1]; omega), h1,
    Nat.add_sub_cancel_left, List.getElem?_append_left hk]

lemma writeSeg_getD_untouched (buf : List ℚ) (a : ℕ) (vals : List ℚ)
    (pos : ℕ) (h : a + vals.length ≤ buf.length)
    (hout : pos < a ∨ a + vals.length ≤ pos) :
    (writeSeg buf a vals).getD pos 0 = buf.getD pos 0 := by
  rw [List.getD_eq_getElem?_getD, List.getD_eq_getElem?_getD]
  rcases hout with h1 | h1
  · rw [writeSeg_getElem?_lt buf a vals pos h1 (by omega)]
  · rw [writeSeg_getElem?_ge buf a vals pos h1 h]

lemma writeSeg_getD_mem (buf : List ℚ) (a : ℕ) (vals : List ℚ) (k : ℕ)
    (hk : k < vals.length) (h : a ≤ buf.length) :
    (writeSeg buf a vals).getD (a + k) 0 = vals.getD k 0 := by
  rw [List.getD_eq_getElem?_getD, List.getD_eq_getElem?_getD,
    writeSeg_getElem?_mem buf a vals k hk h]

/-! ### Helper lemmas: sample arrays of the synthesis loop -/

lemma linspace01_length (n : ℕ) : (linspace01 n).length = n := by
  match n with
  | 0 => rfl
  | 1 => rfl
  | n + 2 => rw [linspace01, List.length_map, List.length_range]

lemma commandFill_length (ops : RealOps) (c : Command) (d : ℚ) (n : ℕ) :
    (commandFill ops c d n).length = n := by
  rcases c with ⟨t, dur, k⟩
  cases k <;>
    simp [commandFill, linearRampFill, powerRampFill, sineFill,
      linspace01_length]

lemma linearRampFill_head (iv fv : ℚ) (n : ℕ) (hn : 1 ≤ n) :
    (linearRampFill iv fv n).getD 0 0 = iv := by
  match n, hn with
  | 1, _ => simp [linearRampFill, linspace01]
  | (m+2), _ =>
    simp only [linearRampFill, linspace01, List.getD_eq_getElem?_getD,
      List.getElem?_map, List.getElem?_range (show 0 < m + 2 by omega)]
    simp

lemma linearRampFill_last (iv fv : ℚ) (n : ℕ) (hn : 2 ≤ n) :
    (linearRampFill iv fv n).getD (n - 1) 0 = fv := by
  obtain ⟨m, rfl⟩ : ∃ m, n = m + 2 := ⟨n - 2, by omega⟩
  have hidx : m + 2 - 1 = m + 1 := by omega
  rw [hidx]
  simp only [linearRampFill, linspace01, List.getD_eq_getElem?_getD,
    List.getElem?_map, List.getElem?_range (show m + 1 < m + 2 by omega)]
  simp only [Option.map_some', Option.getD_some]
  have hm1 : ((m + 1 : ℕ) : ℚ) = (m : ℚ) + 1 := by push_cast; ring
  rw [hm1, div_self (by positivity)]
  ring

/-! ### Helper lemmas: the synthesis fold -/

lemma synthStep_pair_eq (ops : RealOps) (ts : List ℚ) (t_init : ℚ)
    (buf : List ℚ) (c : Command) (d : ℚ) :
    synthStep ops ts t_init buf (c, d) =
      writeSeg buf (argminAbs (c.t - t_init) ts)
        (commandFill ops c d (argminAbs (d + c.t - t_init) ts -
          argminAbs (c.t - t_init) ts)) := rfl

lemma synthStep_length (ops : RealOps) (ts : List ℚ) (t_init : ℚ)
    (buf : List ℚ) (cd : Command × ℚ) (hlen : buf.length = ts.length)
    (hne : ts ≠ []) :
    (synthStep ops ts t_init buf cd).length = buf.length := by
  have ha := argminAbs_lt_length (cd.1.t - t_init) ts hne
  have hb := argminAbs_lt_length (cd.2 + cd.1.t - t_init) ts hne
  have h : argminAbs (cd.1.t - t_init) ts +
      (commandFill ops cd.1 cd.2
        (argminAbs (cd.2 + cd.1.t - t_init) ts -
          argminAbs (cd.1.t - t_init) ts)).length ≤ buf.length := by
    rw [commandFill_length]; omega
  simp only [synthStep]
  exact writeSeg_length _ _ _ h

lemma foldl_synthStep_length (ops : RealOps) (ts : List ℚ) (t_init : ℚ)
    (l : List (Command × ℚ)) (hne : ts ≠ []) :
    ∀ buf : List ℚ, buf.length = ts.length →
      (l.foldl (synthStep ops ts t_init) buf).length = ts.length := by
  induction l with
  | nil => intro buf h; simpa using h
  | cons cd rest ih =>
    intro buf h
    rw [List.foldl_cons]
    exact ih _ (by rw [synthStep_length ops ts t_init buf cd h hne, h])

lemma foldl_synthStep_getD (ops : RealOps) (ts : List ℚ) (t_init : ℚ)
    (l : List (Command × ℚ)) (pos : ℕ) (hne : ts ≠ []) :
    ∀ buf : List ℚ, buf.length = ts.length →
      (∀ cd ∈ l, ¬(argminAbs (cd.1.t - t_init) ts ≤ pos ∧
        pos < argminAbs (cd.2 + cd.1.t - t_init) ts)) →
      (l.foldl (synthStep ops ts t_init) buf).getD pos 0 = buf.getD pos 0 := by
  induction l with
  | nil => intro buf _ _; rfl
  | cons cd rest ih =>
    intro buf hlen hun
    rw [List.foldl_cons,
      ih _ (by rw [synthStep_length ops ts t_init buf cd hlen hne, hlen])
        (fun c hc => hun c (by simp [hc]))]
    have ha := argminAbs_lt_length (cd.1.t - t_init) ts hne
    have hb := argminAbs_lt_length (cd.2 + cd.1.t - t_init) ts hne
    have hcd := hun cd (by simp)
    simp only [synthStep]
    apply writeSeg_getD_untouched
    · rw [commandFill_length]; omega
    · rw [commandFill_length]; omega

/-- Claim C7: the synthesized sample buffer always has exactly 16384 = 2^14
elements, and every position not contained in any command's written index
range `[start_index, end_index)` still holds the initial fill value 0. -/
theorem c7_buffer_size_and_untouched_zero (ops : RealOps)
    (cmds : List Command) (pos : ℕ)
    (huntouched : ∀ cd ∈ cmds.zip (resolvedDurs cmds),
      ¬(argminAbs (cd.1.t - tInitOf cmds) (linspaceT (spanOf cmds)) ≤ pos ∧
        pos < argminAbs (cd.2 + cd.1.t - tInitOf cmds)
          (linspaceT (spanOf cmds)))) :
    (outValues ops cmds).length = 16384 ∧
    (outValues ops cmds).getD pos 0 = 0 := by
  have htsne : linspaceT (spanOf cmds) ≠ [] := linspaceT_ne_nil _
  have htslen : (linspaceT (spanOf cmds)).length = bufferN := linspaceT_length _
  have hbuf : (List.replicate bufferN (0:ℚ)).length =
      (linspaceT (spanOf cmds)).length := by
    rw [List.length_replicate, htslen]
  constructor
  · rw [outValues, synthBuffer,
      foldl_synthStep_length ops _ _ _ htsne _ hbuf, htslen]
    norm_num [bufferN]
  · rw [outValues, synthBuffer,
      foldl_synthStep_getD ops _ _ _ pos htsne _ hbuf huntouched,
      List.getD_eq_getElem?_getD, List.getElem?_replicate]
    split <;> rfl

/-- Witness for claim C7: on the one-command timeline `[sampleCmd]`, whose
written range is `[0, 16383)`, position 16383 (the last grid point, one past
the range) is untouched: the compiled buffer has 16384 entries and still holds
the fill value 0 there. -/
theorem c7_buffer_size_and_untouched_zero_witness :
    (∀ cd ∈ [sampleCmd].zip (resolvedDurs [sampleCmd]),
      ¬(argminAbs (cd.1.t - tInitOf [sampleCmd])
          (linspaceT (spanOf [sampleCmd])) ≤ 16383 ∧
        16383 < argminAbs (cd.2 + cd.1.t - tInitOf [sampleCmd])
          (linspaceT (spanOf [sampleCmd])))) ∧
    (outValues ops0 [sampleCmd]).length = 16384 ∧
    (outValues ops0 [sampleCmd]).getD 16383 0 = 0 := by
  have hunt : ∀ cd ∈ [sampleCmd].zip (resolvedDurs [sampleCmd]),
      ¬(argminAbs (cd.1.t - tInitOf [sampleCmd])
          (linspaceT (spanOf [sampleCmd])) ≤ 16383 ∧
        16383 < argminAbs (cd.2 + cd.1.t - tInitOf [sampleCmd])
          (linspaceT (spanOf [sampleCmd]))) := by
    intro cd _
    have hlt := argminAbs_lt_length (cd.2 + cd.1.t - tInitOf [sampleCmd])
      (linspaceT (spanOf [sampleCmd])) (linspaceT_ne_nil _)
    rw [linspaceT_length] at hlt
    have hbn : bufferN = 16384 := by norm_num [bufferN]
    omega
  exact ⟨hunt,
    (c7_buffer_size_and_untouched_zero ops0 [sampleCmd] 16383 hunt).1,
    (c7_buffer_size_and_untouched_zero ops0 [sampleCmd] 16383 hunt).2⟩

/-- Claim C6: a `linear_ramp` command whose resolved sample range
`[start_index, end_index)` has width at least 2, and whose boundary samples are
not overwritten by any later command, produces `init_volt` at `start_index` and
`final_volt` at `end_index - 1` in the synthesized buffer (exactly, in the
rational model). -/
theorem c6_linear_ramp_boundaries (ops : RealOps) (cmds : List Command)
    (pre post : List (Command × ℚ)) (c : Command) (d iv fv : ℚ)
    (hsplit : cmds.zip (resolvedDurs cmds) = pre ++ (c, d) :: post)
    (hkind : c.kind = CommandKind.linear_ramp iv fv)
    (a b : ℕ)
    (ha : a = argminAbs (c.t - tInitOf cmds) (linspaceT (spanOf cmds)))
    (hb : b = argminAbs (d + c.t - tInitOf cmds) (linspaceT (spanOf cmds)))
    (hw : a + 2 ≤ b)
    (hpost : ∀ cd ∈ post,
      (¬(argminAbs (cd.1.t - tInitOf cmds) (linspaceT (spanOf cmds)) ≤ a ∧
        a < argminAbs (cd.2 + cd.1.t - tInitOf cmds)
          (linspaceT (spanOf cmds)))) ∧
      (¬(argminAbs (cd.1.t - tInitOf cmds) (linspaceT (spanOf cmds)) ≤ b - 1 ∧
        b - 1 < argminAbs (cd.2 + cd.1.t - tInitOf cmds)
          (linspaceT (spanOf cmds))))) :
    (outValues ops cmds).getD a 0 = iv ∧
    (outValues ops cmds).getD (b - 1) 0 = fv := by
  have htsne : linspaceT (spanOf cmds) ≠ [] := linspaceT_ne_nil _
  have htslen : (linspaceT (spanOf cmds)).length = bufferN := linspaceT_length _
  have ha' : a < (linspaceT (spanOf cmds)).length := by
    rw [ha]; exact argminAbs_lt_length _ _ htsne
  have hb' : b < (linspaceT (spanOf cmds)).length := by
    rw [hb]; exact argminAbs_lt_length _ _ htsne
  have hbuf : (List.replicate bufferN (0:ℚ)).length =
      (linspaceT (spanOf cmds)).length := by
    rw [List.length_replicate, htslen]
  have hlen1 : (pre.foldl (synthStep ops (linspaceT (spanOf cmds))
      (tInitOf cmds)) (List.replicate bufferN 0)).length =
      (linspaceT (spanOf cmds)).length :=
    foldl_synthStep_length ops _ _ pre htsne _ hbuf
  set buf1 := pre.foldl (synthStep ops (linspaceT (spanOf cmds))
      (tInitOf cmds)) (List.replicate bufferN 0) with hbuf1
  have hfill : commandFill ops c d (b - a) = linearRampFill iv fv (b - a) := by
    simp only [commandFill, hkind]
  have hstep : synthStep ops (linspaceT (spanOf cmds)) (tInitOf cmds)
      buf1 (c, d) = writeSeg buf1 a (linearRampFill iv fv (b - a)) := by
    rw [synthStep_pair_eq, ← ha, ← hb, hfill]
  have hlen2 : (writeSeg buf1 a (linearRampFill iv fv (b - a))).length =
      (linspaceT (spanOf cmds)).length := by
    rw [writeSeg_length]
    · exact hlen1
    · rw [linearRampFill, List.length_map, linspace01_length]
      omega
  have hval_a : (writeSeg buf1 a (linearRampFill iv fv (b - a))).getD a 0 =
      iv := by
    have hm := writeSeg_getD_mem buf1 a (linearRampFill iv fv (b - a)) 0
      (by rw [linearRampFill, List.length_map, linspace01_length]; omega)
      (by omega)
    rw [Nat.add_zero] at hm
    rw [hm, linearRampFill_head _ _ _ (by omega)]
  have hval_b : (writeSeg buf1 a (linearRampFill iv fv (b - a))).getD
      (b - 1) 0 = fv := by
    have hk : b - 1 = a + (b - a - 1) := by omega
    have hm := writeSeg_getD_mem buf1 a (linearRampFill iv fv (b - a))
      (b - a - 1)
      (by rw [linearRampFill, List.length_map, linspace01_length]; omega)
      (by omega)
    rw [hk, hm, linearRampFill_last _ _ _ (by omega)]
  rw [outValues, synthBuffer, hsplit, List.foldl_append, List.foldl_cons,
    ← hbuf1, hstep]
  constructor
  · rw [foldl_synthStep_getD ops _ _ post a htsne _ hlen2
      (fun cd hc => (hpost cd hc).1)]
    exact hval_a
  · rw [foldl_synthStep_getD ops _ _ post (b - 1) htsne _ hlen2
      (fun cd hc => (hpost cd hc).2)]
    exact hval_b

/-- Witness for claim C6: a single linear ramp from 1 to 0 spanning exactly one
frequency-increment period fills the buffer from index 0 to index 16382. -/
theorem c6_linear_ramp_boundaries_witness :
    sampleCmd.kind = CommandKind.linear_ramp 1 0 ∧ (0:ℕ) + 2 ≤ 16383 ∧
    (outValues ops0 [sampleCmd]).getD 0 0 = 1 ∧
    (outValues ops0 [sampleCmd]).getD (16383 - 1) 0 = 0 := by
  have e2 : spanOf [sampleCmd] = 1000000/116415 := by
    norm_num [spanOf, compiledSpan, totalDurationOf, tFinalOf, tInitOf,
      sampleCmd, listMin, listMax, indexOfMax, resolvedDurs, timeDiffs,
      fillZeros, List.findIdx_cons, roundedFreq, freq_increment]
  have e1 : sampleCmd.t - tInitOf [sampleCmd] = 0 := by
    norm_num [sampleCmd, tInitOf, listMin]
  have e3 : (1000000/116415 : ℚ) + sampleCmd.t - tInitOf [sampleCmd]
      = 1000000/116415 := by
    norm_num [sampleCmd, tInitOf, listMin]
  have hsplit : [sampleCmd].zip (resolvedDurs [sampleCmd]) =
      [] ++ (sampleCmd, 1000000/116415) :: [] := by
    norm_num [resolvedDurs, sampleCmd, timeDiffs, fillZeros]
  have ha : (0:ℕ) = argminAbs (sampleCmd.t - tInitOf [sampleCmd])
      (linspaceT (spanOf [sampleCmd])) := by
    rw [e1, e2, argminAbs_linspaceT_zero _ (by norm_num)]
  have hb : (16383:ℕ) = argminAbs ((1000000/116415:ℚ) + sampleCmd.t -
      tInitOf [sampleCmd]) (linspaceT (spanOf [sampleCmd])) := by
    rw [e3, e2, argminAbs_linspaceT_last _ (by norm_num)]
  have H := c6_linear_ramp_boundaries ops0 [sampleCmd] [] [] sampleCmd
    (1000000/116415) 1 0 hsplit rfl 0 16383 ha hb (by norm_num) (by simp)
  exact ⟨rfl, by norm_num, H.1, H.2⟩
